import Mathlib

/-!
Shallow embedding of the multi-notify gotify plugin (src/plugin.go).

Go strings are modelled as `List Char`; Go `nil` maps as `none`; the
outcome of each webhook HTTP attempt and of each websocket dial is an
oracle parameter, since those depend on the network environment.
-/

abbrev Str := List Char

def str (s : String) : Str := s.toList

/-- Semantics of Go `strings.Replace(s, old, new, -1)` (leftmost-match,
non-overlapping, the replacement text is not rescanned), written with a
fuel argument so that it is structurally recursive.  The call sites in
`SendMessage` use only the non-empty patterns `$title` and `$message`;
for an empty pattern this model is the identity. -/
def replaceAllF (pat rep : Str) : Nat → Str → Str
  | 0, l => l
  | _ + 1, [] => []
  | fuel + 1, c :: rest =>
    if pat.isPrefixOf (c :: rest) ∧ pat ≠ [] then
      rep ++ replaceAllF pat rep fuel (List.drop (pat.length - 1) rest)
    else
      c :: replaceAllF pat rep fuel rest

/-- `strings.Replace(l, pat, rep, -1)` as used at src/plugin.go lines 155-156. -/
def replaceAll (pat rep l : Str) : Str := replaceAllF pat rep l.length l

/-- Specification-side view of the same scan: the maximal pattern-free
pieces of `l` between the leftmost non-overlapping occurrences of `pat`.
Used only to state what "every occurrence is replaced" means. -/
def splitOnF (pat : Str) : Nat → Str → List Str
  | 0, l => [l]
  | _ + 1, [] => [[]]
  | fuel + 1, c :: rest =>
    if pat.isPrefixOf (c :: rest) ∧ pat ≠ [] then
      [] :: splitOnF pat fuel (List.drop (pat.length - 1) rest)
    else
      match splitOnF pat fuel rest with
      | [] => [[c]]
      | p :: ps => (c :: p) :: ps

/-- Pieces of `l` delimited by occurrences of `pat`. -/
def splitOnPat (pat l : Str) : List Str := splitOnF pat l.length l

/-- Interleave a separator between pieces (`List.intercalate`, spelled out). -/
def joinWith (sep : Str) : List Str → Str
  | [] => []
  | [p] => p
  | p :: ps => p ++ sep ++ joinWith sep ps

/-- The `$title` placeholder (src/plugin.go line 155). -/
def titlePat : Str := str "$title"

/-- The `$message` placeholder (src/plugin.go line 156). -/
def msgPat : Str := str "$message"

/-- `plugin.Message` restricted to the two fields the plugin reads
(`Title`, `Message`); the Go zero value is a pair of empty strings. -/
structure Message where
  title : Str
  message : Str
deriving DecidableEq, Repr

/-- Template rendering of src/plugin.go lines 154-156: first every
`$title` is replaced by `msg.Title`, then every `$message` is replaced
by `msg.Message` in the result of the first pass. -/
def renderBody (body : Str) (m : Message) : Str :=
  replaceAll msgPat m.message (replaceAll titlePat m.title body)

/-- The `WebHook` record of src/plugin.go lines 89-94.  `header` is an
association list wrapped in `Option`: `none` models a Go `nil` map. -/
structure WebHook where
  url : Str
  method : Str
  body : Str
  header : Option (List (Str × Str))
deriving DecidableEq, Repr

/-- The default body template of src/plugin.go line 152. -/
def defaultBody : Str := str "\x7b\"msg\":\"$title\n$message\"\x7d"

/-- The default header map of src/plugin.go lines 147-149. -/
def contentTypeJson : List (Str × Str) := [(str "Content-Type", str "application/json")]

/-- The in-place default resolution of src/plugin.go lines 143-153: an
empty method becomes POST, a nil header map becomes the JSON content
type, an empty body becomes the default template. -/
def resolveWebHook (w : WebHook) : WebHook :=
  { url := w.url
    method := if w.method = [] then str "POST" else w.method
    body := if w.body = [] then defaultBody else w.body
    header := if w.header = none then some contentTypeJson else w.header }

/-- The data handed to `http.NewRequest` / `http.DefaultClient.Do` for
one webhook (src/plugin.go lines 158-166). -/
structure HttpRequest where
  method : Str
  url : Str
  body : Str
  headers : List (Str × Str)
deriving DecidableEq, Repr

/-- Environment-determined outcome of one delivery attempt: success,
`http.NewRequest` error, or `http.DefaultClient.Do` error. -/
inductive AttemptOutcome where
  | ok
  | reqErr
  | doErr
deriving DecidableEq, Repr

/-- Result of one `SendMessage` call: the webhook list as left behind by
the in-place mutation, the delivery attempts in order (each with the
resolved and rendered request data), and the returned error if any. -/
structure SendOut where
  webhooks : List WebHook
  attempts : List HttpRequest
  err : Option AttemptOutcome
deriving DecidableEq, Repr

/-- Request construction of src/plugin.go lines 154-166 for an already
resolved webhook: the body template with both placeholders substituted,
the webhook's method, url and headers. -/
def buildRequest (m : Message) (w : WebHook) : HttpRequest :=
  { method := w.method
    url := w.url
    body := renderBody w.body m
    headers := w.header.getD [] }

/-- The loop body of `SendMessage` (src/plugin.go lines 142-174), with
`i` the index of the current webhook in the original list.  Defaults are
written into the current webhook record before the request is built; on
a request-construction or send error the function returns that error at
once, leaving the remaining webhooks untouched and unattempted. -/
def sendMessageGo (outcome : Nat → AttemptOutcome) (m : Message) : Nat → List WebHook → SendOut
  | _, [] => { webhooks := [], attempts := [], err := none }
  | i, w :: rest =>
    let w2 := resolveWebHook w
    let req := buildRequest m w2
    match outcome i with
    | .ok =>
      let o := sendMessageGo outcome m (i + 1) rest
      { webhooks := w2 :: o.webhooks, attempts := req :: o.attempts, err := o.err }
    | e => { webhooks := w2 :: rest, attempts := [req], err := some e }

/-- `SendMessage` (src/plugin.go lines 141-177), with the per-attempt
network outcome supplied by the oracle `outcome`. -/
def sendMessage (outcome : Nat → AttemptOutcome) (m : Message) (whs : List WebHook) : SendOut :=
  sendMessageGo outcome m 0 whs

/-- One inbound websocket frame after `json.Unmarshal`: either a decode
error, or a JSON object in which each of the two known fields may be
present or absent. -/
inductive Frame where
  | invalid
  | valid (title : Option Str) (message : Option Str)
deriving DecidableEq, Repr

/-- Effect of `json.Unmarshal(frame, &msg)` on the reused `msg` variable
of src/plugin.go line 190: a present field overwrites, an absent field
keeps the value left over from earlier frames. -/
def mergeFrame (m : Message) : Frame → Message
  | .invalid => m
  | .valid t mg => { title := t.getD m.title, message := mg.getD m.message }

/-- The Go zero value `plugin.Message\x7b\x7d` of src/plugin.go line 190. -/
def msg0 : Message := { title := [], message := [] }

/-- The read goroutine of src/plugin.go lines 191-209, processing a
trace of inbound frames while threading the single reused `msg` record;
returns the list of events handed to `SendMessage`, in order.  A decode
error stops the loop and nothing is dispatched for that frame or later
ones. -/
def readLoop (m : Message) : List Frame → List Message
  | [] => []
  | .invalid :: _ => []
  | .valid t mg :: rest =>
    let m2 := mergeFrame m (.valid t mg)
    m2 :: readLoop m2 rest

/-- The plugin `Config` of src/plugin.go lines 97-101. -/
structure Config where
  clientToken : Str
  hostServer : Str
  webHooks : List WebHook
deriving DecidableEq, Repr

/-- `DefaultConfig` (src/plugin.go lines 104-110). -/
def DefaultConfig : Config :=
  { clientToken := str "CrMo3UaAQG1H37G", hostServer := str "ws://localhost", webHooks := [] }

/-- `ValidateAndSetConfig` (src/plugin.go lines 113-116): the config is
stored exactly as given, no defaults are filled in at load time. -/
def ValidateAndSetConfig (c : Config) : Config := c

/-- The stream URL built at src/plugin.go lines 54 and 62. -/
def serverUrl (c : Config) : Str := c.hostServer ++ str "/stream?token=" ++ c.clientToken

/-- `TestSocket` (src/plugin.go lines 37-44): one throwaway dial whose
success is decided by the environment oracle `dialOk`. -/
def TestSocket (dialOk : Str → Bool) (u : Str) : Option Str :=
  if dialOk u then none else some (str "Test dial error")

/-- Observable result of one `Enable` call: the returned error, the
URLs dialled by the pre-flight check, and the `ReadMessages` background
sessions spawned (by their stream URL). -/
structure EnableOut where
  err : Option Str
  dialed : List Str
  spawned : List Str
deriving DecidableEq, Repr

/-- `Enable` (src/plugin.go lines 47-66): empty server and empty token
fail synchronously before any dial; a failed pre-flight dial fails
synchronously after exactly one dial; only on success is one
`ReadMessages` goroutine spawned. -/
def Enable (dialOk : Str → Bool) (c : Config) : EnableOut :=
  if c.hostServer.length < 1 then
    { err := some (str "please enter the correct web server"), dialed := [], spawned := [] }
  else if c.clientToken.length < 1 then
    { err := some (str "please add the client token first"), dialed := [], spawned := [] }
  else
    match TestSocket dialOk (serverUrl c) with
    | some _ =>
      { err := some (str "web server url is not valid, either client_token or url is not valid")
        dialed := [serverUrl c], spawned := [] }
    | none => { err := none, dialed := [serverUrl c], spawned := [serverUrl c] }

/-- `Disable` (src/plugin.go lines 69-72) acting on the set of running
sessions: the body only logs and returns `nil`, so the session list is
returned unchanged and no error is produced. -/
def Disable (sessions : List Str) : List Str × Option Str := (sessions, none)

/-- A frame written on the websocket connection by the select loop. -/
inductive OutFrame where
  | text (payload : Str)
  | close
deriving DecidableEq, Repr

/-- One wake-up of the select loop of src/plugin.go lines 214-241: the
read goroutine finished, the heartbeat ticker fired (with the write
outcome), or an interrupt arrived (with the close-write outcome and,
when the peer closes the connection, the number of seconds until the
read loop is observed to terminate). -/
inductive LoopEvent where
  | done
  | tick (writeOk : Bool)
  | interrupt (closeWriteOk : Bool) (ackAfter : Option Nat)
deriving DecidableEq, Repr

/-- Observable effect of handling one select-loop event: frames written,
whether `ReadMessages` returns (releasing the connection via the
deferred `conn.Close`), the extra seconds waited before returning, and
the returned error. -/
structure StepResult where
  sent : List OutFrame
  terminated : Bool
  waitedSeconds : Nat
  err : Option Str
deriving DecidableEq, Repr

/-- The grace period of src/plugin.go line 237 (`time.After(time.Second)`). -/
def graceSeconds : Nat := 1

/-- The select loop body of src/plugin.go lines 214-241.  On interrupt
with a successful close-write, the loop sends the normal-closure frame
and then waits on whichever comes first of the read loop terminating
and the one-second timer, then returns. -/
def selectStep (now : Str) : LoopEvent → StepResult
  | .done => { sent := [], terminated := true, waitedSeconds := 0, err := none }
  | .tick ok =>
    if ok then { sent := [.text now], terminated := false, waitedSeconds := 0, err := none }
    else { sent := [.text now], terminated := true, waitedSeconds := 0, err := some (str "write") }
  | .interrupt ok ack =>
    if ok then
      { sent := [.close], terminated := true
        waitedSeconds := match ack with | some t => min t graceSeconds | none => graceSeconds
        err := none }
    else { sent := [.close], terminated := true, waitedSeconds := 0, err := some (str "write close") }

/-- Webhook fixture: all fields already populated. -/
def hookA : WebHook :=
  { url := str "http://a", method := str "POST", body := str "b", header := some [] }

/-- Webhook fixture: all fields already populated, second target. -/
def hookB : WebHook :=
  { url := str "http://b", method := str "POST", body := str "b", header := some [] }

/-- Webhook fixture with every defaultable field empty, as in the spec
scenario (method "", body "", headers nil). -/
def emptyHook : WebHook :=
  { url := str "http://h/hook", method := [], body := [], header := none }

/-- Frame-trace fixture: the second frame omits the `title` field. -/
def demoFrames : List Frame :=
  [Frame.valid (some (str "A")) (some (str "B")), Frame.valid none (some (str "C"))]

theorem replaceAllF_fuel (pat rep : Str) :
    ∀ f1 f2 : Nat, ∀ l : Str, l.length ≤ f1 → l.length ≤ f2 →
      replaceAllF pat rep f1 l = replaceAllF pat rep f2 l := by
  intro f1
  induction f1 with
  | zero =>
    intro f2 l h1 _
    have hl : l = [] := List.length_eq_zero.mp (Nat.le_zero.mp h1)
    subst hl
    cases f2 <;> rfl
  | succ f ih =>
    intro f2 l h1 h2
    cases l with
    | nil => cases f2 <;> rfl
    | cons c rest =>
      cases f2 with
      | zero => simp at h2
      | succ g =>
        simp only [List.length_cons, Nat.succ_le_succ_iff] at h1 h2
        simp only [replaceAllF]
        by_cases hc : pat.isPrefixOf (c :: rest) = true ∧ pat ≠ []
        · rw [if_pos hc, if_pos hc]
          have hd : (List.drop (pat.length - 1) rest).length ≤ rest.length := by
            simp [List.length_drop]
          exact congrArg (rep ++ ·) (ih g _ (le_trans hd h1) (le_trans hd h2))
        · rw [if_neg hc, if_neg hc]
          exact congrArg (c :: ·) (ih g rest h1 h2)

theorem replaceAll_pos (pat rep : Str) (c : Char) (rest : Str)
    (h : pat.isPrefixOf (c :: rest) = true) (hne : pat ≠ []) :
    replaceAll pat rep (c :: rest)
      = rep ++ replaceAll pat rep (List.drop (pat.length - 1) rest) := by
  show replaceAllF pat rep (c :: rest).length (c :: rest) = _
  simp only [List.length_cons, replaceAllF, if_pos (And.intro h hne)]
  refine congrArg (rep ++ ·) (replaceAllF_fuel pat rep _ _ _ ?_ le_rfl)
  simp [List.length_drop]

theorem replaceAll_neg (pat rep : Str) (c : Char) (rest : Str)
    (h : ¬(pat.isPrefixOf (c :: rest) = true ∧ pat ≠ [])) :
    replaceAll pat rep (c :: rest) = c :: replaceAll pat rep rest := by
  show replaceAllF pat rep (c :: rest).length (c :: rest) = _
  simp only [List.length_cons, replaceAllF, if_neg h]
  rfl

theorem splitOnF_fuel (pat : Str) :
    ∀ f1 f2 : Nat, ∀ l : Str, l.length ≤ f1 → l.length ≤ f2 →
      splitOnF pat f1 l = splitOnF pat f2 l := by
  intro f1
  induction f1 with
  | zero =>
    intro f2 l h1 _
    have hl : l = [] := List.length_eq_zero.mp (Nat.le_zero.mp h1)
    subst hl
    cases f2 <;> rfl
  | succ f ih =>
    intro f2 l h1 h2
    cases l with
    | nil => cases f2 <;> rfl
    | cons c rest =>
      cases f2 with
      | zero => simp at h2
      | succ g =>
        simp only [List.length_cons, Nat.succ_le_succ_iff] at h1 h2
        simp only [splitOnF]
        by_cases hc : pat.isPrefixOf (c :: rest) = true ∧ pat ≠ []
        · rw [if_pos hc, if_pos hc]
          have hd : (List.drop (pat.length - 1) rest).length ≤ rest.length := by
            simp [List.length_drop]
          rw [ih g _ (le_trans hd h1) (le_trans hd h2)]
        · rw [if_neg hc, if_neg hc, ih g rest h1 h2]

theorem splitOn_pos (pat : Str) (c : Char) (rest : Str)
    (h : pat.isPrefixOf (c :: rest) = true) (hne : pat ≠ []) :
    splitOnPat pat (c :: rest)
      = [] :: splitOnPat pat (List.drop (pat.length - 1) rest) := by
  show splitOnF pat (c :: rest).length (c :: rest) = _
  simp only [List.length_cons, splitOnF, if_pos (And.intro h hne)]
  rw [splitOnF_fuel pat _ _ _ (by simp [List.length_drop]) le_rfl]
  rfl

theorem splitOn_neg (pat : Str) (c : Char) (rest p : Str) (ps : List Str)
    (h : ¬(pat.isPrefixOf (c :: rest) = true ∧ pat ≠ []))
    (hsp : splitOnPat pat rest = p :: ps) :
    splitOnPat pat (c :: rest) = (c :: p) :: ps := by
  show splitOnF pat (c :: rest).length (c :: rest) = _
  simp only [List.length_cons, splitOnF, if_neg h]
  have hsp2 : splitOnF pat rest.length rest = p :: ps := hsp
  rw [hsp2]

theorem splitOn_ne_nil (pat : Str) : ∀ fuel : Nat, ∀ l : Str, splitOnF pat fuel l ≠ [] := by
  intro fuel
  induction fuel with
  | zero => intro l; simp [splitOnF]
  | succ f ih =>
    intro l
    cases l with
    | nil => simp [splitOnF]
    | cons c rest =>
      simp only [splitOnF]
      by_cases hc : pat.isPrefixOf (c :: rest) = true ∧ pat ≠ []
      · rw [if_pos hc]; simp
      · rw [if_neg hc]
        cases hs : splitOnF pat f rest with
        | nil => simp
        | cons p ps => simp

theorem splitOnPat_ne_nil (pat l : Str) : splitOnPat pat l ≠ [] :=
  splitOn_ne_nil pat l.length l

theorem replaceAll_of_not_occurs (pat rep : Str) :
    ∀ l : Str, ¬ pat <:+: l → replaceAll pat rep l = l := by
  intro l
  induction l with
  | nil => intro _; rfl
  | cons c rest ih =>
    intro h
    have hne : pat ≠ [] := by
      rintro rfl
      exact h List.nil_infix
    have hnp : ¬ pat.isPrefixOf (c :: rest) = true := by
      intro hp
      exact h (List.isPrefixOf_iff_prefix.mp hp).isInfix
    rw [replaceAll_neg pat rep c rest (fun hc => hnp hc.1)]
    rw [ih (fun hi => h (List.infix_cons hi))]

theorem joinWith_cons₂ (sep p q : Str) (qs : List Str) :
    joinWith sep (p :: q :: qs) = p ++ sep ++ joinWith sep (q :: qs) := rfl

theorem replaceAll_eq_joinWith (pat rep : Str) :
    ∀ n : Nat, ∀ l : Str, l.length ≤ n →
      replaceAll pat rep l = joinWith rep (splitOnPat pat l) := by
  intro n
  induction n with
  | zero =>
    intro l h
    have hl : l = [] := List.length_eq_zero.mp (Nat.le_zero.mp h)
    subst hl
    rfl
  | succ n ih =>
    intro l h
    cases l with
    | nil => rfl
    | cons c rest =>
      simp only [List.length_cons, Nat.succ_le_succ_iff] at h
      by_cases hc : pat.isPrefixOf (c :: rest) = true ∧ pat ≠ []
      · rw [replaceAll_pos pat rep c rest hc.1 hc.2, splitOn_pos pat c rest hc.1 hc.2]
        have hd : (List.drop (pat.length - 1) rest).length ≤ n := by
          have : (List.drop (pat.length - 1) rest).length ≤ rest.length := by
            simp [List.length_drop]
          omega
        rw [ih _ hd]
        cases hs : splitOnPat pat (List.drop (pat.length - 1) rest) with
        | nil => exact absurd hs (splitOnPat_ne_nil pat _)
        | cons p ps => rw [joinWith_cons₂]; rfl
      · cases hs : splitOnPat pat rest with
        | nil => exact absurd hs (splitOnPat_ne_nil pat rest)
        | cons p ps =>
          rw [replaceAll_neg pat rep c rest hc, splitOn_neg pat c rest p ps hc hs, ih rest h, hs]
          cases ps with
          | nil => rfl
          | cons q qs => rw [joinWith_cons₂, joinWith_cons₂]; rfl

theorem replaceAll_splits (pat rep l : Str) :
    replaceAll pat rep l = joinWith rep (splitOnPat pat l) :=
  replaceAll_eq_joinWith pat rep l.length l le_rfl

theorem splitOn_head_pre (pat : Str) :
    ∀ n : Nat, ∀ l p : Str, ∀ ps : List Str,
      l.length ≤ n → splitOnPat pat l = p :: ps → p <+: l := by
  intro n
  induction n with
  | zero =>
    intro l p ps h hs
    have hl : l = [] := List.length_eq_zero.mp (Nat.le_zero.mp h)
    subst hl
    have : p = [] := by
      have h2 : ([[]] : List Str) = p :: ps := hs
      exact (List.cons.injEq _ _ _ _ ▸ h2).1.symm
    simp [this]
  | succ n ih =>
    intro l p ps h hs
    cases l with
    | nil =>
      have : p = [] := by
        have h2 : ([[]] : List Str) = p :: ps := hs
        exact (List.cons.injEq _ _ _ _ ▸ h2).1.symm
      simp [this]
    | cons c rest =>
      simp only [List.length_cons, Nat.succ_le_succ_iff] at h
      by_cases hc : pat.isPrefixOf (c :: rest) = true ∧ pat ≠ []
      · rw [splitOn_pos pat c rest hc.1 hc.2] at hs
        have : p = [] := ((List.cons.injEq _ _ _ _).mp hs.symm).1
        simp [this]
      · cases hq : splitOnPat pat rest with
        | nil => exact absurd hq (splitOnPat_ne_nil pat rest)
        | cons q qs =>
          rw [splitOn_neg pat c rest q qs hc hq] at hs
          have hpq : p = c :: q := ((List.cons.injEq _ _ _ _).mp hs.symm).1
          subst hpq
          exact List.cons_prefix_cons.mpr ⟨rfl, ih rest q qs h hq⟩

theorem splitOn_pieces (pat : Str) (hpat : pat ≠ []) :
    ∀ n : Nat, ∀ l : Str, l.length ≤ n →
      ∀ p ∈ splitOnPat pat l, ¬ pat <:+: p := by
  intro n
  induction n with
  | zero =>
    intro l hn p hp hinf
    have hl : l = [] := List.length_eq_zero.mp (Nat.le_zero.mp hn)
    subst hl
    have : p = [] := by simpa [splitOnPat, splitOnF] using hp
    subst this
    exact hpat (List.infix_nil.mp hinf)
  | succ n ih =>
    intro l hn p hp hinf
    cases l with
    | nil =>
      have : p = [] := by simpa [splitOnPat, splitOnF] using hp
      subst this
      exact hpat (List.infix_nil.mp hinf)
    | cons c rest =>
      simp only [List.length_cons, Nat.succ_le_succ_iff] at hn
      by_cases hc : pat.isPrefixOf (c :: rest) = true ∧ pat ≠ []
      · rw [splitOn_pos pat c rest hc.1 hc.2] at hp
        rcases List.mem_cons.mp hp with h0 | hmem
        · subst h0
          exact hpat (List.infix_nil.mp hinf)
        · have hd : (List.drop (pat.length - 1) rest).length ≤ n := by
            have : (List.drop (pat.length - 1) rest).length ≤ rest.length := by
              simp [List.length_drop]
            omega
          exact ih _ hd p hmem hinf
      · cases hq : splitOnPat pat rest with
        | nil => exact absurd hq (splitOnPat_ne_nil pat rest)
        | cons q qs =>
          rw [splitOn_neg pat c rest q qs hc hq] at hp
          rcases List.mem_cons.mp hp with h0 | hmem
          · subst h0
            rcases List.infix_cons_iff.mp hinf with hpre | hitail
            · have hqrest : q <+: rest := splitOn_head_pre pat n rest q qs hn hq
              have : pat <+: c :: rest :=
                hpre.trans (List.cons_prefix_cons.mpr ⟨rfl, hqrest⟩)
              exact hc ⟨List.isPrefixOf_iff_prefix.mpr this, hpat⟩
            · exact ih rest hn q (hq ▸ List.mem_cons_self q qs) hitail
          · exact ih rest hn p (hq ▸ List.mem_cons_of_mem q hmem) hinf

/-- C3: template rendering is total and replaces every occurrence.  The
rendered body is the body's `$title`-free pieces interleaved with the
title (then likewise for `$message` on the result), the pieces produced
by the scan never contain the pattern (so every occurrence, not just the
first, was consumed and replaced), and a body containing neither
placeholder is returned unchanged. -/
theorem spec_c3 (body : Str) (m : Message) :
    renderBody body m
      = joinWith m.message (splitOnPat msgPat (joinWith m.title (splitOnPat titlePat body)))
    ∧ (∀ p ∈ splitOnPat titlePat body, ¬ titlePat <:+: p)
    ∧ (∀ p ∈ splitOnPat msgPat (joinWith m.title (splitOnPat titlePat body)), ¬ msgPat <:+: p)
    ∧ (¬ titlePat <:+: body → ¬ msgPat <:+: body → renderBody body m = body) := by
  refine ⟨?_, ?_, ?_, ?_⟩
  · show replaceAll msgPat m.message (replaceAll titlePat m.title body) = _
    rw [replaceAll_splits titlePat m.title body, replaceAll_splits msgPat m.message]
  · exact splitOn_pieces titlePat (by decide) body.length body le_rfl
  · exact splitOn_pieces msgPat (by decide) _ _ le_rfl
  · intro h1 h2
    show replaceAll msgPat m.message (replaceAll titlePat m.title body) = body
    rw [replaceAll_of_not_occurs titlePat m.title body h1]
    exact replaceAll_of_not_occurs msgPat m.message body h2

/-- Witness for C3 at concrete inputs. -/
theorem spec_c3_witness :
    renderBody (str "abc") { title := str "T", message := str "M" } = str "abc"
    ∧ ¬ titlePat <:+: str "ab" :=
  ⟨(spec_c3 (str "abc") { title := str "T", message := str "M" }).2.2.2 (by decide) (by decide),
   (spec_c3 (str "ab$titlecd") { title := str "T", message := str "M" }).2.1
     (str "ab") (by decide)⟩

/-- C4 fails on the code: the two substitutions are sequential ($title
first, then $message on the result), so a `$message` occurrence that the
title value introduces IS substituted by the second pass.  Rendering
body `$title` with title `A$message` and message `M` yields `AM`, not
`A$message`. -/
theorem spec_c4_counterexample :
    renderBody (str "$title") { title := str "A$message", message := str "M" } = str "AM"
    ∧ str "AM" ≠ str "A$message" :=
  ⟨by decide, by decide⟩

/-- C4 amended: re-rendering the rendered body with the same Event
yields the same output whenever the rendered output contains no further
`$title` or `$message` placeholder. -/
theorem spec_c4_amended (body : Str) (m : Message)
    (h1 : ¬ titlePat <:+: renderBody body m) (h2 : ¬ msgPat <:+: renderBody body m) :
    renderBody (renderBody body m) m = renderBody body m := by
  show replaceAll msgPat m.message (replaceAll titlePat m.title (renderBody body m))
      = renderBody body m
  rw [replaceAll_of_not_occurs titlePat m.title _ h1]
  exact replaceAll_of_not_occurs msgPat m.message _ h2

/-- Witness for the amended C4 at concrete inputs. -/
theorem spec_c4_amended_witness :
    renderBody (renderBody (str "x$title") { title := str "T", message := str "M" })
        { title := str "T", message := str "M" }
      = renderBody (str "x$title") { title := str "T", message := str "M" } :=
  spec_c4_amended (str "x$title") { title := str "T", message := str "M" }
    (by decide) (by decide)

theorem sendGo_ok (outcome : Nat → AttemptOutcome) (m : Message) :
    ∀ (l : List WebHook) (k : Nat), (∀ i, i < l.length → outcome (k + i) = .ok) →
      sendMessageGo outcome m k l
        = { webhooks := l.map resolveWebHook
            attempts := l.map (fun w => buildRequest m (resolveWebHook w))
            err := none } := by
  intro l
  induction l with
  | nil => intro k _; rfl
  | cons w rest ih =>
    intro k h
    have h0 : outcome k = .ok := by simpa using h 0 (by simp)
    have hrec := ih (k + 1) (fun i hi => by
      have hh := h (i + 1) (by simpa using Nat.succ_lt_succ hi)
      have he : k + (i + 1) = k + 1 + i := by omega
      rwa [he] at hh)
    simp only [sendMessageGo, h0, hrec, List.map_cons]

theorem sendGo_fail (outcome : Nat → AttemptOutcome) (m : Message) :
    ∀ (l : List WebHook) (k i : Nat), i < l.length →
      (∀ j, j < i → outcome (k + j) = .ok) → outcome (k + i) ≠ .ok →
      sendMessageGo outcome m k l
        = { webhooks := (l.take (i + 1)).map resolveWebHook ++ l.drop (i + 1)
            attempts := (l.take (i + 1)).map (fun w => buildRequest m (resolveWebHook w))
            err := some (outcome (k + i)) } := by
  intro l
  induction l with
  | nil => intro k i hi; simp at hi
  | cons w rest ih =>
    intro k i hi hok hbad
    cases i with
    | zero =>
      have hb : outcome k ≠ .ok := by simpa using hbad
      simp only [sendMessageGo]
      cases ho : outcome k with
      | ok => exact absurd ho hb
      | reqErr => simp [ho]
      | doErr => simp [ho]
    | succ s =>
      have h0 : outcome k = .ok := by simpa using hok 0 (Nat.succ_pos s)
      have hs : s < rest.length := by simpa using hi
      have hrec := ih (k + 1) s hs
        (fun j hj => by
          have hh := hok (j + 1) (Nat.succ_lt_succ hj)
          have he : k + (j + 1) = k + 1 + j := by omega
          rwa [he] at hh)
        (by
          have he : k + (s + 1) = k + 1 + s := by omega
          rwa [he] at hbad)
      have he : k + 1 + s = k + (s + 1) := by omega
      simp only [sendMessageGo, h0, hrec, he, List.take_succ_cons, List.drop_succ_cons,
        List.map_cons, List.cons_append]

/-- C1 fails on the code: with two targets and the first delivery
attempt failing, `SendMessage` performs only one attempt and returns
the error; the second target is never attempted. -/
theorem spec_c1_counterexample :
    (sendMessage (fun _ => AttemptOutcome.doErr) { title := str "T", message := str "M" }
        [hookA, hookB]).attempts.length = 1
    ∧ ([hookA, hookB] : List WebHook).length = 2
    ∧ (sendMessage (fun _ => AttemptOutcome.doErr) { title := str "T", message := str "M" }
        [hookA, hookB]).err = some AttemptOutcome.doErr :=
  ⟨rfl, rfl, rfl⟩

/-- C1 amended: `SendMessage` attempts targets in list order; when every
attempt succeeds there are exactly N attempts, one per target, and no
error; but a failing attempt at index i aborts the batch, so exactly the
targets at indices 0..i are attempted and the error is returned. -/
theorem spec_c1_amended (outcome : Nat → AttemptOutcome) (m : Message) (whs : List WebHook) :
    ((∀ i, i < whs.length → outcome i = .ok) →
      (sendMessage outcome m whs).attempts
          = whs.map (fun w => buildRequest m (resolveWebHook w))
      ∧ (sendMessage outcome m whs).err = none)
    ∧ (∀ i, i < whs.length → (∀ j, j < i → outcome j = .ok) → outcome i ≠ .ok →
      (sendMessage outcome m whs).attempts
          = (whs.take (i + 1)).map (fun w => buildRequest m (resolveWebHook w))
      ∧ (sendMessage outcome m whs).err = some (outcome i)) := by
  constructor
  · intro h
    have hgo := sendGo_ok outcome m whs 0 (fun i hi => by simpa using h i hi)
    simp only [sendMessage, hgo]
    exact ⟨trivial, trivial⟩
  · intro i hi hok hbad
    have hgo := sendGo_fail outcome m whs 0 i hi
      (fun j hj => by simpa using hok j hj) (by simpa using hbad)
    simp only [sendMessage, hgo, Nat.zero_add]
    exact ⟨trivial, trivial⟩

/-- Witness for the amended C1 at concrete inputs. -/
theorem spec_c1_amended_witness :
    (sendMessage (fun _ => AttemptOutcome.ok) { title := str "T", message := str "M" }
        [hookA]).attempts
      = [hookA].map (fun w => buildRequest { title := str "T", message := str "M" }
          (resolveWebHook w))
    ∧ (sendMessage (fun _ => AttemptOutcome.ok) { title := str "T", message := str "M" }
        [hookA]).err = none :=
  (spec_c1_amended (fun _ => AttemptOutcome.ok) { title := str "T", message := str "M" }
    [hookA]).1 (fun _ _ => rfl)

/-- C5: defaults are resolved for empty fields of a dispatched target
(empty method becomes POST, nil headers become exactly the JSON content
type, empty body becomes the default template), and the request issued
for a target is built from the resolved webhook. -/
theorem spec_c5 (outcome : Nat → AttemptOutcome) (m : Message) (w : WebHook) :
    (w.method = [] → (resolveWebHook w).method = str "POST")
    ∧ (w.header = none → (resolveWebHook w).header = some contentTypeJson)
    ∧ (w.body = [] → (resolveWebHook w).body = defaultBody)
    ∧ (sendMessage outcome m [w]).attempts = [buildRequest m (resolveWebHook w)] := by
  refine ⟨?_, ?_, ?_, ?_⟩
  · intro h; simp [resolveWebHook, h]
  · intro h; simp [resolveWebHook, h]
  · intro h; simp [resolveWebHook, h]
  · cases ho : outcome 0 <;> simp [sendMessage, sendMessageGo, ho]

/-- Witness for C5 at the spec scenario target (method "", body "",
headers nil). -/
theorem spec_c5_witness :
    (resolveWebHook emptyHook).method = str "POST"
    ∧ (resolveWebHook emptyHook).header = some contentTypeJson
    ∧ (resolveWebHook emptyHook).body = defaultBody
    ∧ (sendMessage (fun _ => AttemptOutcome.ok)
        { title := str "Disk", message := str "90% full" } [emptyHook]).attempts
      = [buildRequest { title := str "Disk", message := str "90% full" }
          (resolveWebHook emptyHook)] :=
  ⟨(spec_c5 (fun _ => AttemptOutcome.ok)
      { title := str "Disk", message := str "90% full" } emptyHook).1 rfl,
   (spec_c5 (fun _ => AttemptOutcome.ok)
      { title := str "Disk", message := str "90% full" } emptyHook).2.1 rfl,
   (spec_c5 (fun _ => AttemptOutcome.ok)
      { title := str "Disk", message := str "90% full" } emptyHook).2.2.1 rfl,
   (spec_c5 (fun _ => AttemptOutcome.ok)
      { title := str "Disk", message := str "90% full" } emptyHook).2.2.2⟩

/-- C10: `ValidateAndSetConfig` stores the configuration unresolved, and
`SendMessage` writes the resolved defaults back into the passed-in
webhook records: after a fully successful call every record is its
resolved form, and after a call failing at index i the records up to i
are resolved while the rest are untouched. -/
theorem spec_c10 (outcome : Nat → AttemptOutcome) (m : Message) (whs : List WebHook) :
    (∀ c : Config, ValidateAndSetConfig c = c)
    ∧ ((∀ i, i < whs.length → outcome i = .ok) →
        (sendMessage outcome m whs).webhooks = whs.map resolveWebHook)
    ∧ (∀ i, i < whs.length → (∀ j, j < i → outcome j = .ok) → outcome i ≠ .ok →
        (sendMessage outcome m whs).webhooks
          = (whs.take (i + 1)).map resolveWebHook ++ whs.drop (i + 1))
    ∧ (∀ w : WebHook, w.method = [] → (resolveWebHook w).method = str "POST")
    ∧ (∀ w : WebHook, w.header = none → (resolveWebHook w).header = some contentTypeJson)
    ∧ (∀ w : WebHook, w.body = [] → (resolveWebHook w).body = defaultBody) := by
  refine ⟨fun _ => rfl, ?_, ?_, ?_, ?_, ?_⟩
  · intro h
    have hgo := sendGo_ok outcome m whs 0 (fun i hi => by simpa using h i hi)
    simp only [sendMessage, hgo]
  · intro i hi hok hbad
    have hgo := sendGo_fail outcome m whs 0 i hi
      (fun j hj => by simpa using hok j hj) (by simpa using hbad)
    simp only [sendMessage, hgo]
  · intro w h; simp [resolveWebHook, h]
  · intro w h; simp [resolveWebHook, h]
  · intro w h; simp [resolveWebHook, h]

/-- Witness for C10 at concrete inputs. -/
theorem spec_c10_witness :
    (sendMessage (fun _ => AttemptOutcome.ok) { title := str "T", message := str "M" }
        [emptyHook]).webhooks = [emptyHook].map resolveWebHook :=
  (spec_c10 (fun _ => AttemptOutcome.ok) { title := str "T", message := str "M" }
    [emptyHook]).2.1 (fun _ _ => rfl)

/-- C2: a decode error on one inbound frame terminates the session's
read loop without invoking the dispatcher for that frame (or any later
one); the frames before it are each dispatched exactly once. -/
theorem spec_c2 (m : Message) (pfx rest : List Frame)
    (h : ∀ f ∈ pfx, f ≠ Frame.invalid) :
    readLoop m (pfx ++ Frame.invalid :: rest) = readLoop m pfx
    ∧ (readLoop m pfx).length = pfx.length := by
  induction pfx generalizing m with
  | nil => exact ⟨rfl, rfl⟩
  | cons f pfx ih =>
    cases f with
    | invalid => exact absurd rfl (h _ (List.mem_cons_self _ _))
    | valid t mg =>
      have h2 : ∀ g ∈ pfx, g ≠ Frame.invalid := fun g hg => h g (List.mem_cons_of_mem _ hg)
      have IH := ih (mergeFrame m (Frame.valid t mg)) h2
      simp only [List.cons_append, readLoop, List.length_cons, List.append_eq]
      exact ⟨by rw [IH.1], by rw [IH.2]⟩

/-- Witness for C2 at a concrete frame trace. -/
theorem spec_c2_witness :
    readLoop msg0 ([Frame.valid (some (str "A")) (some (str "B"))]
        ++ Frame.invalid :: [Frame.valid (some (str "X")) none])
      = readLoop msg0 [Frame.valid (some (str "A")) (some (str "B"))]
    ∧ (readLoop msg0 [Frame.valid (some (str "A")) (some (str "B"))]).length
      = [Frame.valid (some (str "A")) (some (str "B"))].length :=
  spec_c2 msg0 [Frame.valid (some (str "A")) (some (str "B"))]
    [Frame.valid (some (str "X")) none] (by decide)

/-- C8 fails on the code: the single `msg` record of src/plugin.go line
190 is reused across frames, so the second frame of `demoFrames`, which
omits the `title` field, is dispatched with the previous frame's title
`A` instead of a fresh zero value. -/
theorem spec_c8_counterexample :
    readLoop msg0 demoFrames
      = [{ title := str "A", message := str "B" }, { title := str "A", message := str "C" }]
    ∧ ({ title := str "A", message := str "C" } : Message)
        ≠ { title := [], message := str "C" } :=
  ⟨by decide, by decide⟩

/-- C8 amended: one event is dispatched per valid inbound frame, but the
decode target is a single reused record, so the event dispatched for
frame N is the left fold of the field-merges of frames 1..N over the
initial record: a field omitted by a frame inherits the value left over
from earlier frames. -/
theorem spec_c8_amended (m : Message) (fs : List Frame)
    (h : ∀ f ∈ fs, f ≠ Frame.invalid) :
    (readLoop m fs).length = fs.length
    ∧ ∀ i, i < fs.length →
        (readLoop m fs)[i]? = some (List.foldl mergeFrame m (fs.take (i + 1))) := by
  induction fs generalizing m with
  | nil => exact ⟨rfl, fun i hi => absurd hi (by simp)⟩
  | cons f fs ih =>
    cases f with
    | invalid => exact absurd rfl (h _ (List.mem_cons_self _ _))
    | valid t mg =>
      have h2 : ∀ g ∈ fs, g ≠ Frame.invalid := fun g hg => h g (List.mem_cons_of_mem _ hg)
      have IH := ih (mergeFrame m (Frame.valid t mg)) h2
      constructor
      · simp only [readLoop, List.length_cons, IH.1]
      · intro i hi
        cases i with
        | zero => simp [readLoop]
        | succ s =>
          have hs : s < fs.length := by simpa using hi
          simp only [readLoop, List.getElem?_cons_succ, List.take_succ_cons, List.foldl_cons]
          exact IH.2 s hs

/-- Witness for the amended C8 at a concrete frame trace. -/
theorem spec_c8_amended_witness :
    (readLoop msg0 demoFrames)[1]?
      = some (List.foldl mergeFrame msg0 (demoFrames.take 2)) :=
  (spec_c8_amended msg0 demoFrames (by decide)).2 1 (by decide)

/-- C6: `Enable` fails synchronously, with no session spawned, whenever
the server address is empty, the token is empty, or the pre-flight dial
against the stream URL fails; at most one pre-flight dial is ever
performed (no retry). -/
theorem spec_c6 (dialOk : Str → Bool) (c : Config) :
    (c.hostServer = [] →
      Enable dialOk c
        = { err := some (str "please enter the correct web server"), dialed := [], spawned := [] })
    ∧ (c.clientToken = [] →
      (Enable dialOk c).err ≠ none ∧ (Enable dialOk c).spawned = []
        ∧ (Enable dialOk c).dialed = [])
    ∧ (dialOk (serverUrl c) = false →
      (Enable dialOk c).err ≠ none ∧ (Enable dialOk c).spawned = [])
    ∧ (Enable dialOk c).dialed.length ≤ 1 := by
  refine ⟨?_, ?_, ?_, ?_⟩
  · intro h
    simp [Enable, h]
  · intro h
    by_cases hH : c.hostServer.length < 1
    · simp [Enable, hH]
    · simp [Enable, hH, h]
  · intro h
    by_cases hH : c.hostServer.length < 1
    · simp [Enable, hH]
    · by_cases hT : c.clientToken.length < 1
      · simp [Enable, hH, hT]
      · simp [Enable, hH, hT, TestSocket, h]
  · by_cases hH : c.hostServer.length < 1
    · simp [Enable, hH]
    · by_cases hT : c.clientToken.length < 1
      · simp [Enable, hH, hT]
      · cases hD : dialOk (serverUrl c) <;> simp [Enable, hH, hT, TestSocket, hD]

/-- Witness for C6: empty server address, and a failing pre-flight dial
against the default configuration. -/
theorem spec_c6_witness :
    Enable (fun _ => false) { clientToken := [], hostServer := [], webHooks := [] }
      = { err := some (str "please enter the correct web server"), dialed := [], spawned := [] }
    ∧ (Enable (fun _ => false) DefaultConfig).err ≠ none
    ∧ (Enable (fun _ => false) DefaultConfig).spawned = [] :=
  ⟨(spec_c6 (fun _ => false) { clientToken := [], hostServer := [], webHooks := [] }).1 rfl,
   ((spec_c6 (fun _ => false) DefaultConfig).2.2.1 rfl).1,
   ((spec_c6 (fun _ => false) DefaultConfig).2.2.1 rfl).2⟩

/-- C7 concerns a code bug: after a successful `Enable` has spawned a
read-loop session, `Disable` (whose body only logs and returns nil)
leaves the session list unchanged and still non-empty — it does not stop
the active session. -/
theorem spec_c7_disable_leaves_session :
    (Enable (fun _ => true) DefaultConfig).spawned = [serverUrl DefaultConfig]
    ∧ Disable (Enable (fun _ => true) DefaultConfig).spawned
        = ((Enable (fun _ => true) DefaultConfig).spawned, none)
    ∧ (Enable (fun _ => true) DefaultConfig).spawned ≠ ([] : List Str) :=
  ⟨rfl, rfl, by decide⟩

/-- C9: on an interrupt with a successful close-write, the select loop
sends exactly the normal-closure frame, waits at most the one-second
grace period (whether or not the peer ever closes), and terminates; and
it terminates on interrupt regardless of the close-write outcome. -/
theorem spec_c9 (now : Str) (ack : Option Nat) :
    (selectStep now (LoopEvent.interrupt true ack)).sent = [OutFrame.close]
    ∧ (selectStep now (LoopEvent.interrupt true ack)).terminated = true
    ∧ (selectStep now (LoopEvent.interrupt true ack)).waitedSeconds ≤ graceSeconds
    ∧ (∀ ok : Bool, (selectStep now (LoopEvent.interrupt ok ack)).terminated = true) := by
  refine ⟨rfl, rfl, ?_, ?_⟩
  · cases ack with
    | none => simp [selectStep]
    | some t =>
      simp only [selectStep, if_pos rfl]
      exact Nat.min_le_right t graceSeconds
  · intro ok
    cases ok <;> rfl
